import Mathlib

/-!
Verification development for the WSD training/inference pipeline
(`train.py`, `data_preprocessing.py`, `testing.py`, `wsd.py`).

Scores are modelled as exact rationals, tensors as lists of lists, and the
mutating tensor operations (`scatter_`) as functions returning the updated
buffer.  Machine-level float behaviour is abstracted to exact arithmetic;
all claims settled here concern control flow, index arithmetic and set
structure, not rounding.
-/

namespace WSD

/-! ### Basic list max / min helpers (model of torch.argmax / torch.min)

`torch.argmax(t, -1)` returns, per row, the first index attaining the row
maximum (lowest-index tie-breaking); `torch.min(t)` is the global minimum
over all entries of the tensor. -/

/-- Maximum of a list of rationals (0 on the empty list, which never occurs
in use: score rows are nonempty). -/
def listMax : List ℚ → ℚ
  | [] => 0
  | [x] => x
  | x :: y :: t => max x (listMax (y :: t))

/-- Minimum of a list of rationals (0 on the empty list, which never occurs
in use). -/
def listMin : List ℚ → ℚ
  | [] => 0
  | [x] => x
  | x :: y :: t => min x (listMin (y :: t))

/-- First index of the maximal element: model of `torch.argmax(row, -1)`
with first-index-wins tie-breaking. -/
def argmaxFirst (l : List ℚ) : ℕ := List.indexOf (listMax l) l

theorem le_listMax (l : List ℚ) : ∀ a ∈ l, a ≤ listMax l := by
  induction l with
  | nil => simp
  | cons x xs ih =>
    cases xs with
    | nil => simp [listMax]
    | cons y t =>
      intro a ha
      rcases List.mem_cons.mp ha with rfl | ha2
      · simp [listMax]
      · exact le_trans (ih a ha2) (by simp [listMax])

theorem listMax_mem {l : List ℚ} (h : l ≠ []) : listMax l ∈ l := by
  induction l with
  | nil => exact absurd rfl h
  | cons x xs ih =>
    cases xs with
    | nil => simp [listMax]
    | cons y t =>
      have hmem := ih (by simp)
      rcases max_choice x (listMax (y :: t)) with hc | hc
      · simp [listMax, hc]
      · simp only [listMax, hc]
        exact List.mem_cons_of_mem _ hmem

theorem listMin_le (l : List ℚ) : ∀ a ∈ l, listMin l ≤ a := by
  induction l with
  | nil => simp
  | cons x xs ih =>
    cases xs with
    | nil => simp [listMin]
    | cons y t =>
      intro a ha
      rcases List.mem_cons.mp ha with rfl | ha2
      · simp [listMin]
      · exact le_trans (by simp [listMin]) (ih a ha2)

theorem argmaxFirst_lt_length {l : List ℚ} (h : l ≠ []) :
    argmaxFirst l < l.length :=
  List.indexOf_lt_length.mpr (listMax_mem h)

theorem getD_argmaxFirst {l : List ℚ} (h : l ≠ []) :
    l.getD (argmaxFirst l) 0 = listMax l := by
  have hlt : argmaxFirst l < l.length := argmaxFirst_lt_length h
  rw [List.getD_eq_getElem _ _ hlt]
  exact List.getElem_indexOf hlt

theorem listMax_replicate (n : ℕ) (m : ℚ) :
    listMax (List.replicate (n + 1) m) = m := by
  induction n with
  | zero => rfl
  | succ k ih =>
    have : List.replicate (k + 1 + 1) m = m :: List.replicate (k + 1) m := rfl
    rw [this]
    have h2 : ∃ y t, List.replicate (k + 1) m = y :: t := ⟨m, List.replicate k m, rfl⟩
    rcases h2 with ⟨y, t, ht⟩
    rw [ht]
    rw [ht] at ih
    simp [listMax, ih]

theorem argmaxFirst_replicate (n : ℕ) (m : ℚ) :
    argmaxFirst (List.replicate (n + 1) m) = 0 := by
  unfold argmaxFirst
  rw [listMax_replicate]
  exact List.indexOf_cons_self m _

theorem getLastD_mem : ∀ {l : List ℕ}, l ≠ [] → ∀ d : ℕ, l.getLastD d ∈ l := by
  intro l
  induction l with
  | nil => intro h; exact absurd rfl h
  | cons x xs ih =>
    intro _ d
    cases hx : xs with
    | nil => simp [hx, List.getLastD]
    | cons y t =>
      subst hx
      have h2 : (x :: y :: t).getLastD d = (y :: t).getLastD x := by
        cases t <;> simp [List.getLastD]
      rw [h2]
      exact List.mem_cons_of_mem _ (ih (by simp) x)

/-! ### Constrained decoder (`train.py` `BaseTrainer._select_senses`,
`_set2padded`, `_warm_up_sense_ids`)

`N` denotes `len(self.sense2id)`; the score dimension of every model is
`N + 1` and `self.all_sense_ids = set(range(N + 1))`. -/

/-- `utils/util.py` is not under `src/`.  Modelled from the spec:
section 3 reserves sense id 0 as the pad / not-ambiguous sentinel. -/
def NOT_AMB_SYMBOL : ℕ := 0

/-- `self.all_sense_ids = set(range(len(self.sense2id) + 1))` (train.py:94). -/
def allSenseIds (N : ℕ) : Finset ℕ := Finset.range (N + 1)

/-- `BaseTrainer._set2padded` (train.py:298-300): list the set (its
elements are sense ids `≤ N`, listed ascending — Python set order over
dense small ints), then `np.pad(arr, (0, N + 1 - len(arr)), edge)`
repeats the final element until the array has length `N + 1`. -/
def set2padded (N : ℕ) (s : Finset ℕ) : List ℕ :=
  let arr := (List.range (N + 1)).filter fun j => decide (j ∈ s)
  arr ++ List.replicate (N + 1 - arr.length) (arr.getLastD 0)

/-- `self.na_padded = self._set2padded(self.all_sense_ids)` (train.py:308). -/
def naPadded (N : ℕ) : List ℕ := set2padded N (allSenseIds N)

theorem naPadded_eq_range (N : ℕ) : naPadded N = List.range (N + 1) := by
  unfold naPadded set2padded allSenseIds
  have harr : (List.range (N + 1)).filter
      (fun j => decide (j ∈ Finset.range (N + 1))) = List.range (N + 1) :=
    List.filter_eq_self.mpr fun a ha => by
      simp [Finset.mem_range, List.mem_range.mp ha]
  simp only [harr, List.length_range, Nat.sub_self, List.replicate_zero,
    List.append_nil]

theorem mem_naPadded {N j : ℕ} : j ∈ naPadded N ↔ j < N + 1 := by
  rw [naPadded_eq_range]; exact List.mem_range

/-- Per-token gathered index row (train.py:289-292): a token whose label is
the not-ambiguous symbol contributes `self.na_padded`, any other token its
memoized impossible-senses array. -/
def tokenCompl (N : ℕ) (label : ℕ) (impossible : List ℕ) : List ℕ :=
  if label = NOT_AMB_SYMBOL then naPadded N else impossible

/-- `b_scores.scatter_(-1, idx, torch.min(b_scores))` on one row: every
position listed in `c` is overwritten with `m`, all others keep their
value.  Positions of `c` outside the row are out of range for the gather
and do not occur in use. -/
def scatterMin (c : List ℕ) (m : ℚ) (row : List ℚ) : List ℚ :=
  (List.range row.length).map fun j => if j ∈ c then m else row.getD j 0

/-- `torch.min(b_scores)`: global minimum over the whole score tensor. -/
def batchMin (scores : List (List ℚ)) : ℚ := listMin scores.flatten

/-- The score tensor after the in-place `scatter_` of
`BaseTrainer._select_senses` (train.py:284-295): row `i` has the positions
of its gathered complement row overwritten with the batch minimum. -/
def scatterScores (N : ℕ) (scores : List (List ℚ)) (labels : List ℕ)
    (impossibles : List (List ℕ)) : List (List ℚ) :=
  (scores.zip (labels.zip impossibles)).map fun p =>
    scatterMin (tokenCompl N p.2.1 p.2.2) (batchMin scores) p.1

/-- `BaseTrainer._select_senses` (train.py:277-296): scatter the batch
minimum into the impossible positions, then arg-max each row of the
mutated tensor. -/
def selectSenses (N : ℕ) (scores : List (List ℚ)) (labels : List ℕ)
    (impossibles : List (List ℕ)) : List ℕ :=
  (scatterScores N scores labels impossibles).map argmaxFirst

theorem scatterMin_length (c : List ℕ) (m : ℚ) (row : List ℚ) :
    (scatterMin c m row).length = row.length := by
  simp [scatterMin]

theorem scatterMin_getD {c : List ℕ} {m : ℚ} {row : List ℚ} {j : ℕ}
    (hj : j < row.length) :
    (scatterMin c m row).getD j 0 = if j ∈ c then m else row.getD j 0 := by
  have hj2 : j < (scatterMin c m row).length := by
    rw [scatterMin_length]; exact hj
  rw [List.getD_eq_getElem _ _ hj2]
  unfold scatterMin
  rw [List.getElem_map]
  rw [List.getElem_range]

theorem scatterMin_ne_nil {c : List ℕ} {m : ℚ} {row : List ℚ}
    (h : row ≠ []) : scatterMin c m row ≠ [] := by
  intro hcon
  have := scatterMin_length c m row
  rw [hcon] at this
  simp at this
  exact h (List.length_eq_zero.mp this.symm)

/-- Core decoder fact: if some unmasked position of a row scores strictly
above the scatter value `m`, then the first-index arg-max of the mutated
row is an unmasked position. -/
theorem argmax_scatter_not_mem {c : List ℕ} {m : ℚ} {row : List ℚ}
    (hex : ∃ j, j < row.length ∧ j ∉ c ∧ m < row.getD j 0) :
    argmaxFirst (scatterMin c m row) ∉ c := by
  rcases hex with ⟨j, hj, hjc, hjm⟩
  have hrow : row ≠ [] := by
    intro hcon; rw [hcon] at hj; simp at hj
  set s := scatterMin c m row with hs
  have hsne : s ≠ [] := scatterMin_ne_nil hrow
  have hslen : s.length = row.length := scatterMin_length c m row
  -- value at the witness position is the original score, above m
  have hsj : s.getD j 0 = row.getD j 0 := by
    rw [hs, scatterMin_getD hj, if_neg hjc]
  -- the max of s is at least that value
  have hjlt : j < s.length := by rw [hslen]; exact hj
  have hmem : s.getD j 0 ∈ s := by
    rw [List.getD_eq_getElem _ _ hjlt]; exact List.getElem_mem hjlt
  have hmax : m < listMax s :=
    lt_of_lt_of_le (by rw [hsj]; exact hjm) (le_listMax s _ hmem)
  -- the arg-max position carries the max, hence cannot be a masked slot
  intro hcmem
  have hklt : argmaxFirst s < row.length := by
    rw [← hslen]; exact argmaxFirst_lt_length hsne
  have : s.getD (argmaxFirst s) 0 = m := by
    rw [hs, scatterMin_getD hklt, if_pos hcmem]
  rw [getD_argmaxFirst hsne] at this
  exact absurd this (ne_of_gt hmax)

theorem scatterScores_getD {N : ℕ} {scores : List (List ℚ)} {labels : List ℕ}
    {imps : List (List ℕ)} {i : ℕ} (hi1 : i < scores.length)
    (hi2 : i < labels.length) (hi3 : i < imps.length) :
    (scatterScores N scores labels imps).getD i [] =
      scatterMin (tokenCompl N (labels.getD i 0) (imps.getD i []))
        (batchMin scores) (scores.getD i []) := by
  have hz2 : i < (labels.zip imps).length := by
    rw [List.length_zip]; exact lt_min hi2 hi3
  have hz : i < (scores.zip (labels.zip imps)).length := by
    rw [List.length_zip]; exact lt_min hi1 hz2
  have hm : i < ((scores.zip (labels.zip imps)).map fun p =>
      scatterMin (tokenCompl N p.2.1 p.2.2) (batchMin scores) p.1).length := by
    rw [List.length_map]; exact hz
  unfold scatterScores
  rw [List.getD_eq_getElem _ _ hm, List.getElem_map, List.getElem_zip,
    List.getElem_zip]
  rw [List.getD_eq_getElem _ _ hi1, List.getD_eq_getElem _ _ hi2,
    List.getD_eq_getElem _ _ hi3]

theorem selectSenses_getD {N : ℕ} {scores : List (List ℚ)} {labels : List ℕ}
    {imps : List (List ℕ)} {i : ℕ} (hi1 : i < scores.length)
    (hi2 : i < labels.length) (hi3 : i < imps.length) :
    (selectSenses N scores labels imps).getD i 0 =
      argmaxFirst (scatterMin
        (tokenCompl N (labels.getD i 0) (imps.getD i []))
        (batchMin scores) (scores.getD i [])) := by
  have hz2 : i < (labels.zip imps).length := by
    rw [List.length_zip]; exact lt_min hi2 hi3
  have hz : i < (scores.zip (labels.zip imps)).length := by
    rw [List.length_zip]; exact lt_min hi1 hz2
  have hs : i < (scatterScores N scores labels imps).length := by
    unfold scatterScores
    rw [List.length_map]; exact hz
  have hm : i < ((scatterScores N scores labels imps).map argmaxFirst).length := by
    rw [List.length_map]; exact hs
  unfold selectSenses
  rw [List.getD_eq_getElem _ _ hm, List.getElem_map]
  have := scatterScores_getD (N := N) hi1 hi2 hi3
  rw [List.getD_eq_getElem _ _ hs] at this
  rw [this]

theorem scatterMin_naPadded {N : ℕ} {m : ℚ} {row : List ℚ}
    (hlen : row.length ≤ N + 1) :
    scatterMin (naPadded N) m row = List.replicate row.length m := by
  apply List.ext_getElem
  · rw [scatterMin_length, List.length_replicate]
  · intro j hj1 hj2
    rw [scatterMin_length] at hj1
    have hj3 : j < (scatterMin (naPadded N) m row).length := by
      rw [scatterMin_length]; exact hj1
    have := scatterMin_getD (c := naPadded N) (m := m) hj1
    rw [List.getD_eq_getElem _ _ hj3] at this
    rw [this, if_pos (mem_naPadded.mpr (lt_of_lt_of_le hj1 hlen))]
    simp [List.getElem_replicate]

theorem argmaxFirst_replicate_any (n : ℕ) (m : ℚ) :
    argmaxFirst (List.replicate n m) = 0 := by
  cases n with
  | zero => rfl
  | succ k => exact argmaxFirst_replicate k m

/-! ### Claims C3, C4, C10 -/

/-- C3 counterexample.  A token labelled with the not-ambiguous symbol is
NOT exempt from masking: with sense vocabulary of size 2 and scores
`[0, 1]`, the unconstrained arg-max is index 1, but `_select_senses`
gathers `na_padded` (which lists every sense id), overwrites the whole row
with the batch minimum and predicts index 0. -/
theorem C3_counterexample :
    selectSenses 1 [[0, 1]] [NOT_AMB_SYMBOL] [[]] = [0] ∧
      argmaxFirst [0, 1] = 1 := by decide

/-- C3 (amended): for every token whose label equals the not-ambiguous
symbol, the gathered sentinel row `na_padded` lists every sense position,
so `_select_senses` overwrites all of that token's scores with the batch
minimum and its prediction is always index 0 (the lowest index, by
first-index-wins arg-max) — not the unconstrained arg-max of its scores. -/
theorem C3_na_token_predicts_zero {N : ℕ} {scores : List (List ℚ)}
    {labels : List ℕ} {imps : List (List ℕ)} {i : ℕ}
    (hi1 : i < scores.length) (hi2 : i < labels.length)
    (hi3 : i < imps.length) (hlab : labels.getD i 0 = NOT_AMB_SYMBOL)
    (hlen : (scores.getD i []).length ≤ N + 1) :
    (selectSenses N scores labels imps).getD i 0 = 0 := by
  rw [selectSenses_getD hi1 hi2 hi3]
  unfold tokenCompl
  rw [if_pos hlab, scatterMin_naPadded hlen, argmaxFirst_replicate_any]

/-- C3 witness. -/
theorem C3_na_token_predicts_zero_witness :
    (selectSenses 1 [[0, 1], [2, 3]] [NOT_AMB_SYMBOL, 2] [[], [0]]).getD 0 0 = 0 :=
  C3_na_token_predicts_zero (N := 1) (by decide) (by decide) (by decide)
    (by decide) (by decide)

/-- C4 counterexample.  When every inventory-valid position of an
ambiguous token scores exactly the batch global minimum, the masked row is
constant and the first-index arg-max returns 0, which always lies in the
complement (id 0 is never a valid sense): with vocabulary size 3, valid
set `{1}`, complement array `set2padded 2 ({0,1,2} minus {1}) = [0,2,2]`
and scores `[0,0,0]`, the decoder predicts 0 ∈ complement. -/
theorem C4_counterexample :
    selectSenses 2 [[0, 0, 0]] [1] [set2padded 2 (allSenseIds 2 \ {1})] = [0] ∧
      (0 : ℕ) ∈ set2padded 2 (allSenseIds 2 \ {1}) := by decide

/-- C4 (amended): for every token marked as a disambiguation instance, if
at least one position outside its complement array scores strictly above
the batch global minimum, then the sense id returned by `_select_senses`
is not an element of the complement array; in the degenerate case where
every allowed position equals the batch minimum, the arg-max falls to
index 0, which lies in the complement. -/
theorem C4_pred_not_in_complement {N : ℕ} {scores : List (List ℚ)}
    {labels : List ℕ} {imps : List (List ℕ)} {i : ℕ}
    (hi1 : i < scores.length) (hi2 : i < labels.length)
    (hi3 : i < imps.length) (hlab : labels.getD i 0 ≠ NOT_AMB_SYMBOL)
    (hex : ∃ j, j < (scores.getD i []).length ∧ j ∉ imps.getD i [] ∧
      batchMin scores < (scores.getD i []).getD j 0) :
    (selectSenses N scores labels imps).getD i 0 ∉ imps.getD i [] := by
  rw [selectSenses_getD hi1 hi2 hi3]
  unfold tokenCompl
  rw [if_neg hlab]
  exact argmax_scatter_not_mem hex

/-- C4 witness. -/
theorem C4_pred_not_in_complement_witness :
    (selectSenses 2 [[0, 5, 0]] [1] [[0, 2, 2]]).getD 0 0 ∉ [0, 2, 2] :=
  C4_pred_not_in_complement (N := 2) (by decide) (by decide) (by decide)
    (by decide) ⟨1, by decide, by decide, by decide⟩

/-- C10: the `scatter_` of `_select_senses` updates the caller's score
tensor pointwise — row shapes are preserved, every position listed in the
token's gathered complement row now holds the batch global minimum, and
every other position keeps its original score.  (`selectSenses` then takes
its arg-max over exactly this mutated tensor.) -/
theorem C10_scatter_frame {N : ℕ} {scores : List (List ℚ)} {labels : List ℕ}
    {imps : List (List ℕ)} {i j : ℕ} (hi1 : i < scores.length)
    (hi2 : i < labels.length) (hi3 : i < imps.length)
    (hj : j < (scores.getD i []).length) :
    ((scatterScores N scores labels imps).getD i []).length =
        (scores.getD i []).length ∧
      ((scatterScores N scores labels imps).getD i []).getD j 0 =
        if j ∈ tokenCompl N (labels.getD i 0) (imps.getD i [])
        then batchMin scores else (scores.getD i []).getD j 0 := by
  rw [scatterScores_getD hi1 hi2 hi3]
  exact ⟨scatterMin_length _ _ _, scatterMin_getD hj⟩

/-- C10 witness. -/
theorem C10_scatter_frame_witness :
    ((scatterScores 2 [[3, 5, 7]] [1] [[0, 2, 2]]).getD 0 []).length =
        ([[(3 : ℚ), 5, 7]].getD 0 []).length ∧
      ((scatterScores 2 [[3, 5, 7]] [1] [[0, 2, 2]]).getD 0 []).getD 1 0 =
        if 1 ∈ tokenCompl 2 ([1].getD 0 0) ([[0, 2, 2]].getD 0 [])
        then batchMin [[3, 5, 7]] else ([[(3 : ℚ), 5, 7]].getD 0 []).getD 1 0 :=
  C10_scatter_frame (N := 2) (by decide) (by decide) (by decide) (by decide)

/-! ### Claim C1 — checkpointing (`train.py` `BaseTrainer._maybe_checkpoint`,
`_log`, `_maybe_load_checkpoint`)

`_maybe_checkpoint` (train.py:349-363) compares `current_loss` with
`self.min_loss` and, on success, assigns the new minimum to a LOCAL
variable `min_loss` (train.py:352) — `self.min_loss` is never reassigned
inside a run, so the comparison threshold stays at its initial value
(`1e3` for a fresh run, per `_maybe_load_checkpoint`, train.py:386). -/

/-- One `_maybe_checkpoint` call: returns (checkpoint saved?, the
trainer's `min_loss` field after the call).  The second component equals
the first argument in both branches because train.py:352 writes to a local
variable, not to `self.min_loss`. -/
def maybeCheckpointStep (min_loss current_loss : ℚ) : Bool × ℚ :=
  if current_loss < min_loss then (true, min_loss) else (false, min_loss)

/-- Save flags produced over a run of logged losses, threading the
trainer's `min_loss` field through successive `_maybe_checkpoint` calls. -/
def runCheckpointFlags (min_loss : ℚ) : List ℚ → List Bool
  | [] => []
  | l :: ls =>
    (maybeCheckpointStep min_loss l).1 ::
      runCheckpointFlags (maybeCheckpointStep min_loss l).2 ls

/-- Modelled from the spec: save exactly at strict record lows of the
logged loss sequence, updating the running minimum on each save. -/
def recordLowFlags (min_loss : ℚ) : List ℚ → List Bool
  | [] => []
  | l :: ls =>
    if l < min_loss then true :: recordLowFlags l ls
    else false :: recordLowFlags min_loss ls

/-- C1: on a fresh run (`min_loss = 1e3`) with logged losses 5 then 6, the
code saves a checkpoint at BOTH steps (6 is not a record low, but
`self.min_loss` was never lowered to 5), while the claimed record-low
policy saves only at the first. -/
theorem C1_min_loss_never_updated :
    runCheckpointFlags 1000 [5, 6] = [true, true] ∧
      recordLowFlags 1000 [5, 6] = [true, false] := by decide

/-! ### Claim C2 — gradient accumulation scaling (`train.py`
`BaseTrainer.train_epoch`, lines 165-191; `wsd.py` `BaselineWSD`)

With AMP disabled the step runs: `loss.sum().backward()` (train.py:175),
THEN `loss /= self.accumulation_steps` (train.py:176), then
`clip_grad_norm_(..., max_norm=1.0)` (train.py:178).  `backward` is linear
in its argument: backward on `c * loss` adds `c * g` to the accumulated
gradient, where `g` is the gradient of the unscaled batch loss — modelled
by one rational gradient coordinate. -/

/-- Global-norm clipping to 1.0 on the one-coordinate gradient model. -/
def clipNorm1 (g : ℚ) : ℚ := if 1 < |g| then g / |g| else g

/-- One micro-batch of `train_epoch` as the code executes it: the backward
pass adds the UNSCALED gradient `g`, the division by `accumulation_steps`
happens afterwards and touches only the Python loss value (which `_log`
later reads), and the accumulated gradient is clipped to norm 1.0.
Returns (accumulated gradient, loss variable after the step). -/
def trainBatchStep (accGrad g loss accSteps : ℚ) : ℚ × ℚ :=
  (clipNorm1 (accGrad + g), loss / accSteps)

/-- Modelled from the spec sentence of the claim: the loss is scaled by
`1/accumulation_steps` BEFORE backward, so the batch contributes the
gradient of `loss / accumulation_steps`. -/
def trainBatchStepSpec (accGrad g loss accSteps : ℚ) : ℚ × ℚ :=
  (clipNorm1 (accGrad + g / accSteps), loss / accSteps)

/-- C2 counterexample: with zero accumulated gradient, batch gradient 1/2,
loss 1 and accumulation_steps 4, the code accumulates 1/2 while the
claimed scaled-before-backward step would accumulate 1/8. -/
theorem C2_counterexample :
    (trainBatchStep 0 (1/2) 1 4).1 = 1/2 ∧
      (trainBatchStepSpec 0 (1/2) 1 4).1 = 1/8 ∧
      (trainBatchStep 0 (1/2) 1 4).1 ≠ (trainBatchStepSpec 0 (1/2) 1 4).1 := by
  have h2 : |(1 : ℚ)/2| = 1/2 := abs_of_pos (by norm_num)
  have h8 : |(1 : ℚ)/8| = 1/8 := abs_of_pos (by norm_num)
  have e1 : (trainBatchStep 0 (1/2) 1 4).1 = 1/2 := by
    simp only [trainBatchStep, clipNorm1, zero_add, h2]
    norm_num
  have e2 : (trainBatchStepSpec 0 (1/2) 1 4).1 = 1/8 := by
    simp only [trainBatchStepSpec, clipNorm1, zero_add]
    norm_num [h8]
  exact ⟨e1, e2, by rw [e1, e2]; norm_num⟩

/-- C2 (amended): the division by `accumulation_steps` happens only after
the backward pass, so each batch accumulates the gradient of the unscaled
loss — the code step coincides with the claimed step taken with
`accumulation_steps = 1` on the gradient side — while the loss value
carried to logging is `loss / accumulation_steps`; the accumulated
gradient is norm-clipped to 1.0 on every batch. -/
theorem C2_backward_before_scaling (accGrad g loss accSteps : ℚ) :
    trainBatchStep accGrad g loss accSteps =
      ((trainBatchStepSpec accGrad g loss 1).1, loss / accSteps) := by
  simp [trainBatchStep, trainBatchStepSpec]

/-! ### Claim C5 — caching disabled (`train.py:120-126`, `train_epoch`
line 168-170)

With `cache_embeddings = False` the cached loader is `itertools.count()`,
a pass-through counter; `train_epoch` then computes
`b_x_e = b_x_e if self.cache_embeddings else None` and immediately calls
`b_x_e.to(self.device)` (train.py:170), which on `None` raises
`AttributeError`.  (`test`, train.py:245-246, passes the `None` through
without calling `.to`, showing the intended pass-through behaviour.) -/

/-- A Python value flowing into the `cached_embeddings` argument. -/
inductive PyVal where
  | pyNone : PyVal
  | tensor : ℕ → PyVal
deriving DecidableEq

/-- `v.to(self.device)`: attribute access on `None` raises. -/
def tensorToDevice : PyVal → Except String PyVal
  | PyVal.pyNone => Except.error "AttributeError: NoneType has no attribute to"
  | PyVal.tensor v => Except.ok (PyVal.tensor v)

/-- The `cached_embeddings` argument computed by `train_epoch` for one
batch (train.py:169-170): `b_x_e` is the counter value yielded by the
pass-through loader when caching is disabled. -/
def trainStepCachedArg (cache_embeddings : Bool) (b_x_e : ℕ) :
    Except String PyVal :=
  tensorToDevice (if cache_embeddings then PyVal.tensor b_x_e else PyVal.pyNone)

/-- C1-style evaluation for C5: with caching disabled, EVERY batch of
`train_epoch` raises `AttributeError` while computing the
`cached_embeddings` argument, so no training step completes. -/
theorem C5_uncached_step_raises (b_x_e : ℕ) :
    trainStepCachedArg false b_x_e =
      Except.error "AttributeError: NoneType has no attribute to" := rfl

/-! ### Claim C6 — unknown ids at reporting time
(`train.py` `BaseTrainer._print_predictions`, lines 318-324;
`testing.py` `RobertaTest.test`, lines 27-31)

`_print_predictions` indexes `id2sense[pred]` directly — a missing key
raises `KeyError` and aborts reporting.  Only the diagnostic loop in
`testing.py` uses `id2sense.get(t, underscore)` with a sentinel. -/

/-- `id2sense` lookup as an association list (first binding wins,
mirroring dict lookup). -/
def id2senseGet (id2sense : List (ℕ × String)) (i : ℕ) : Option String :=
  (id2sense.find? fun p => p.1 == i).map Prod.snd

/-- testing.py:28-30: `id2sense.get(x, underscore_sentinel)`. -/
def testLookup (id2sense : List (ℕ × String)) (i : ℕ) : String :=
  (id2senseGet id2sense i).getD "_"

/-- One line of `_print_predictions` (train.py:322-324): tokens with
word id `#` are skipped; otherwise `id2sense[pred]` raises `KeyError`
when the id is absent. -/
def printPredLine (id2sense : List (ℕ × String)) (w_id : String)
    (pred : ℕ) : Except String (Option String) :=
  if w_id = "#" then Except.ok Option.none
  else
    match id2senseGet id2sense pred with
    | Option.some s => Except.ok (Option.some (w_id ++ " " ++ s))
    | Option.none => Except.error "KeyError"

/-- `BaseTrainer._print_predictions` over the zipped (word id,
prediction) stream: an uncaught `KeyError` aborts the whole report. -/
def printPredictions (id2sense : List (ℕ × String)) :
    List (String × ℕ) → Except String (List String)
  | [] => Except.ok []
  | (w, p) :: rest =>
    match printPredLine id2sense w p with
    | Except.error e => Except.error e
    | Except.ok Option.none => printPredictions id2sense rest
    | Except.ok (Option.some line) =>
      (printPredictions id2sense rest).map fun ls => line :: ls

/-- C6 counterexample: with reporting map `{1 ↦ wn:sense1}` and
predictions 2 (absent) then 1 (present), `_print_predictions` aborts with
`KeyError` instead of emitting a sentinel and reporting the remaining
token. -/
theorem C6_counterexample :
    printPredictions [(1, "wn:sense1")] [("d000.s000.t000", 2), ("d000.s000.t001", 1)] =
      Except.error "KeyError" := rfl

/-- C6 (amended): only the diagnostic reporter of `testing.py` recovers
from an id absent from the reporting map, via the sentinel `_`; the
prediction-printing operation `_print_predictions` does not recover — for
every non-skipped token whose predicted id is absent it raises `KeyError`
and aborts. -/
theorem C6_sentinel_only_in_test_loop (id2sense : List (ℕ × String)) (i : ℕ)
    (habs : id2senseGet id2sense i = Option.none) :
    testLookup id2sense i = "_" ∧
      ∀ w : String, w ≠ "#" →
        printPredLine id2sense w i = Except.error "KeyError" := by
  constructor
  · unfold testLookup
    rw [habs]
    rfl
  · intro w hw
    unfold printPredLine
    rw [if_neg hw, habs]

/-- C6 witness. -/
theorem C6_sentinel_only_in_test_loop_witness :
    testLookup [(1, "wn:sense1")] 0 = "_" ∧
      ∀ w : String, w ≠ "#" →
        printPredLine [(1, "wn:sense1")] w 0 = Except.error "KeyError" :=
  C6_sentinel_only_in_test_loop [(1, "wn:sense1")] 0 (by decide)

/-! ### Claim C7 — window-group termination conditions
(`data_preprocessing.py` `SemCorDataLoader.__next__` line 117 vs
`ElmoSemCorLoader.__next__` line 159) -/

/-- Base batcher: `end_of_docs = max(lengths) <= self.last_offset +
self.win_size` (data_preprocessing.py:117). -/
def baseEndOfDocs (maxLen last_offset win_size : ℕ) : Bool :=
  decide (maxLen ≤ last_offset + win_size)

/-- Specialized variants: `end_of_docs = self.last_offset + self.win_size
>= max(lengths)` (data_preprocessing.py:159, 205). -/
def elmoEndOfDocs (maxLen last_offset win_size : ℕ) : Bool :=
  decide (last_offset + win_size ≥ maxLen)

/-- C7 counterexample (negation of the claim): there is NO cursor state
and group maximum on which the two termination predicates disagree. -/
theorem C7_counterexample :
    ¬ ∃ maxLen last_offset win_size : ℕ,
      baseEndOfDocs maxLen last_offset win_size ≠
        elmoEndOfDocs maxLen last_offset win_size := by
  intro ⟨m, o, w, h⟩
  exact h rfl

/-- C7 (amended): the two conditions are written as mirrored comparisons
(`a <= b` in the base batcher, `b >= a` in the specialized variants) but
denote the same policy: they end the window group in exactly the same
states. -/
theorem C7_conditions_equivalent (maxLen last_offset win_size : ℕ) :
    baseEndOfDocs maxLen last_offset win_size =
      elmoEndOfDocs maxLen last_offset win_size := rfl

/-! ### Claim C8 — candidate-mask partition invariant
(`train.py` `BaseTrainer._warm_up_sense_ids`, lines 302-316)

Every entry of `impossible_senses_map` is
`_set2padded(all_sense_ids - sense_ids)` with
`sense_ids = to_ids(wn.synsets(lemma, pos))`. -/

/-- Modelled from the spec: `load_sense2id` (imported from
`data_preprocessing` at train.py:25) is not under `src/`.  Section 3
defines SenseVocabulary as a bijection sense-string ↔ integer id with id 0
reserved for pad/not-ambiguous, so the `N` sense strings receive ids
`1..N`; `sense2id.get(x, 0)` (train.py:305) defaults absent strings
to 0. -/
def sense2idOf (senses : List String) (s : String) : ℕ :=
  if s ∈ senses then senses.indexOf s + 1 else 0

/-- `to_ids` of `_warm_up_sense_ids` (train.py:304-305): the set of mapped
synset names minus `{0}` — the inventory's valid sense-id set. -/
def toIds (senses : List String) (names : List String) : Finset ℕ :=
  (names.map (sense2idOf senses)).toFinset \ {0}

theorem toIds_subset (senses names : List String) :
    toIds senses names ⊆ allSenseIds senses.length := by
  intro a ha
  rcases Finset.mem_sdiff.mp ha with ⟨hmem, hne⟩
  have h0 : a ≠ 0 := by
    intro hcon; exact hne (by simp [hcon])
  rcases List.mem_map.mp (List.mem_toFinset.mp hmem) with ⟨nm, _, hnm⟩
  unfold sense2idOf at hnm
  by_cases hin : nm ∈ senses
  · rw [if_pos hin] at hnm
    have : List.indexOf nm senses < senses.length :=
      List.indexOf_lt_length.mpr hin
    rw [allSenseIds, Finset.mem_range, ← hnm]
    omega
  · rw [if_neg hin] at hnm
    exact absurd hnm.symm h0

theorem zero_not_mem_toIds (senses names : List String) :
    0 ∉ toIds senses names := by
  intro h
  exact (Finset.mem_sdiff.mp h).2 (by simp)

/-- The stored padded array represents exactly its source set: padding
only repeats the final listed element. -/
theorem set2padded_toFinset {N : ℕ} {s : Finset ℕ}
    (hsub : s ⊆ allSenseIds N) (hne : s.Nonempty) :
    (set2padded N s).toFinset = s := by
  unfold set2padded
  have harr : ∀ a : ℕ,
      (a ∈ (List.range (N + 1)).filter fun j => decide (j ∈ s)) ↔ a ∈ s := by
    intro a
    rw [List.mem_filter]
    constructor
    · intro h; exact of_decide_eq_true h.2
    · intro h
      refine ⟨List.mem_range.mpr ?_, decide_eq_true h⟩
      exact Finset.mem_range.mp (hsub h)
  have harrne : ((List.range (N + 1)).filter fun j => decide (j ∈ s)) ≠ [] := by
    rcases hne with ⟨a, ha⟩
    intro hcon
    have := (harr a).mpr ha
    rw [hcon] at this
    exact List.not_mem_nil a this
  have hlast : ((List.range (N + 1)).filter fun j => decide (j ∈ s)).getLastD 0 ∈
      ((List.range (N + 1)).filter fun j => decide (j ∈ s)) :=
    getLastD_mem harrne 0
  ext a
  rw [List.mem_toFinset, List.mem_append]
  constructor
  · intro h
    rcases h with h | h
    · exact (harr a).mp h
    · rcases (List.mem_replicate.mp h) with ⟨_, rfl⟩
      exact (harr _).mp hlast
  · intro h
    exact Or.inl ((harr a).mpr h)

/-- C8: for every vocabulary and every synset list handed to `to_ids`, the
stored complement array of `_warm_up_sense_ids` and the inventory's valid
id set are disjoint, their union is the full sense-id space
`all_sense_ids`, and their sizes sum to the score dimension
`len(sense2id) + 1`. -/
theorem C8_mask_partitions_vocabulary (senses names : List String) :
    (set2padded senses.length
        (allSenseIds senses.length \ toIds senses names)).toFinset =
      allSenseIds senses.length \ toIds senses names ∧
    Disjoint
      (set2padded senses.length
        (allSenseIds senses.length \ toIds senses names)).toFinset
      (toIds senses names) ∧
    (set2padded senses.length
        (allSenseIds senses.length \ toIds senses names)).toFinset ∪
      toIds senses names = allSenseIds senses.length ∧
    (set2padded senses.length
        (allSenseIds senses.length \ toIds senses names)).toFinset.card +
      (toIds senses names).card = senses.length + 1 := by
  have hsub : toIds senses names ⊆ allSenseIds senses.length :=
    toIds_subset senses names
  have hCsub : allSenseIds senses.length \ toIds senses names ⊆
      allSenseIds senses.length := Finset.sdiff_subset
  have hCne : (allSenseIds senses.length \ toIds senses names).Nonempty := by
    refine ⟨0, Finset.mem_sdiff.mpr ⟨?_, zero_not_mem_toIds senses names⟩⟩
    exact Finset.mem_range.mpr (Nat.succ_pos _)
  have hrep := set2padded_toFinset hCsub hCne
  refine ⟨hrep, ?_, ?_, ?_⟩
  · rw [hrep]; exact Finset.sdiff_disjoint
  · rw [hrep]; exact Finset.sdiff_union_of_subset hsub
  · rw [hrep]
    have := Finset.card_sdiff_add_card_eq_card hsub
    rw [this, allSenseIds, Finset.card_range]

/-! ### Claim C9 — zero-overlap window reconstruction
(`data_preprocessing.py` `SemCorDataLoader.__iter__` / `__next__`,
lines 97-143, with `overlap_size = 0`)

Within one document group the cursor `last_offset` starts at 0; each
`__next__` BUILDS the batch of spans `[last_offset, last_offset +
win_size)`, advances the cursor by `win_size - 0`, and the group ends on
the call where `max(lengths) <= last_offset + win_size` held.  Delivery
of the built batch is not unconditional: on that terminal call the cursor
moves to the next group (line 138) and, if the group that just ended is
the corpus's final one (`stop_iter` was set because fewer than
`batch_size` documents remained, or the advanced `last_doc` reaches the
corpus size), `raise StopIteration` (line 141) executes BEFORE the
`return` (line 143), so the batch built on that call is discarded and its
windows never reach the consumer. -/

/-- Offsets at which `__next__` BUILDS a batch for one document group
(the cursor trace), driven by fuel (`maxLen` steps always suffice when
`win_size ≥ 1`).  Whether the batch built at the final listed offset is
also returned depends on the group being the corpus's last one — see
`deliveredOffsets`. -/
def groupOffsetsAux : ℕ → ℕ → ℕ → ℕ → List ℕ
  | 0, _, _, offset => [offset]
  | fuel + 1, maxLen, win_size, offset =>
    if maxLen ≤ offset + win_size then [offset]
    else offset :: groupOffsetsAux fuel maxLen win_size (offset + win_size)

/-- All offsets at which `__next__` builds a batch for a document group
whose longest document has length `maxLen`, at overlap 0. -/
def builtOffsets (maxLen win_size : ℕ) : List ℕ :=
  groupOffsetsAux maxLen maxLen win_size 0

/-- `stop_iter` of `__next__` (data_preprocessing.py:118-121): set when
some row index `i < batch_size` of the loop falls at or beyond the corpus
size. -/
def stopIter (numDocs last_doc batch_size : ℕ) : Bool :=
  (List.range batch_size).any fun i => decide (numDocs ≤ last_doc + i)

/-- The guard of `raise StopIteration` (data_preprocessing.py:140-141),
taken on the `end_of_docs` call after `last_doc` has advanced by
`batch_size`: `stop_iter or self.last_doc >= len(self.dataset.docs)`.
It is true exactly when the group that just ended is the corpus's final
one, whose freshly built terminal batch is therefore discarded. -/
def groupRaisesStop (numDocs last_doc batch_size : ℕ) : Bool :=
  stopIter numDocs last_doc batch_size ||
    decide (numDocs ≤ last_doc + batch_size)

/-- Offsets whose batches are actually RETURNED to the consumer: all
built offsets for a non-final group; for the corpus's final group
(`raises` = the `groupRaisesStop` guard, true there) all but the terminal
offset, whose batch is built and then thrown away by the early
`raise StopIteration`. -/
def deliveredOffsets (raises : Bool) (maxLen win_size : ℕ) : List ℕ :=
  if raises then (builtOffsets maxLen win_size).dropLast
  else builtOffsets maxLen win_size

/-- One window of `__next__` for one document: the real token span
`doc[last_offset : last_offset + win_size]` padded to `win_size` (pad
positions modelled as `none`), together with `length = len(text_span)`
(data_preprocessing.py:123-134). -/
def windowAt {α : Type} (d : List α) (win_size off : ℕ) :
    List (Option α) × ℕ :=
  let span := ((d.map some).drop off).take win_size
  (span ++ List.replicate (win_size - span.length) Option.none, span.length)

/-- The valid (unpadded) prefix of a window: its first `valid_length`
positions. -/
def validSpan {α : Type} (w : List (Option α) × ℕ) : List (Option α) :=
  w.1.take w.2

/-- All windows the batcher DELIVERS for document `d` inside a group with
maximum document length `maxLen`; `raises` is the group's
`groupRaisesStop` guard, i.e. whether it is the corpus's final group
(then the terminal batch is built but discarded). -/
def docWindows {α : Type} (d : List α) (win_size maxLen : ℕ)
    (raises : Bool) : List (List (Option α) × ℕ) :=
  (deliveredOffsets raises maxLen win_size).map (windowAt d win_size)

theorem validSpan_windowAt {α : Type} (d : List α) (win_size off : ℕ) :
    validSpan (windowAt d win_size off) =
      ((d.map some).drop off).take win_size := by
  unfold validSpan windowAt
  exact List.take_left _ _

theorem groupOffsetsAux_flatten {β : Type} (l : List β) (maxLen W : ℕ)
    (hlen : l.length ≤ maxLen) :
    ∀ (fuel offset : ℕ), maxLen ≤ offset + W * (fuel + 1) →
      ((groupOffsetsAux fuel maxLen W offset).map
        fun off => (l.drop off).take W).flatten = l.drop offset := by
  intro fuel
  induction fuel with
  | zero =>
    intro offset h
    simp only [groupOffsetsAux, List.map_cons, List.map_nil,
      List.flatten_cons, List.flatten_nil, List.append_nil]
    apply List.take_of_length_le
    rw [List.length_drop]
    omega
  | succ k ih =>
    intro offset h
    by_cases hend : maxLen ≤ offset + W
    · simp only [groupOffsetsAux, if_pos hend, List.map_cons, List.map_nil,
        List.flatten_cons, List.flatten_nil, List.append_nil]
      apply List.take_of_length_le
      rw [List.length_drop]
      omega
    · simp only [groupOffsetsAux, if_neg hend, List.map_cons,
        List.flatten_cons]
      have hmul : W * (k + 1 + 1) = W * (k + 1) + W := Nat.mul_succ W (k + 1)
      have hrec := ih (offset + W) (by omega)
      rw [hrec]
      have hdd : List.drop (offset + W) l = List.drop W (List.drop offset l) := by
        rw [List.drop_drop]
      rw [hdd, List.take_append_drop]

theorem groupOffsetsAux_ne_nil (fuel maxLen win_size offset : ℕ) :
    groupOffsetsAux fuel maxLen win_size offset ≠ [] := by
  cases fuel with
  | zero => simp [groupOffsetsAux]
  | succ k =>
    unfold groupOffsetsAux
    by_cases h : maxLen ≤ offset + win_size
    · simp [h]
    · simp [h]

/-- Concatenating all but the LAST built span of a group gives exactly
the prefix of the sequence up to the terminal window offset. -/
theorem groupOffsetsAux_dropLast_flatten {β : Type} (l : List β)
    (maxLen W : ℕ) :
    ∀ (fuel offset : ℕ),
      ((groupOffsetsAux fuel maxLen W offset).dropLast.map
        fun off => (l.drop off).take W).flatten =
      (l.drop offset).take
        (W * ((groupOffsetsAux fuel maxLen W offset).length - 1)) := by
  intro fuel
  induction fuel with
  | zero =>
    intro offset
    simp [groupOffsetsAux]
  | succ k ih =>
    intro offset
    by_cases hend : maxLen ≤ offset + W
    · simp [groupOffsetsAux, hend]
    · have hne := groupOffsetsAux_ne_nil k maxLen W (offset + W)
      have hpos : 1 ≤ (groupOffsetsAux k maxLen W (offset + W)).length :=
        List.length_pos.mpr hne
      simp only [groupOffsetsAux, if_neg hend,
        List.dropLast_cons_of_ne_nil hne, List.map_cons, List.flatten_cons,
        List.length_cons, Nat.add_sub_cancel]
      rw [ih (offset + W)]
      have hdd : List.drop (offset + W) l = List.drop W (List.drop offset l) := by
        rw [List.drop_drop]
      rw [hdd, ← List.take_add]
      congr 1
      have hL : (groupOffsetsAux k maxLen W (offset + W)).length =
          ((groupOffsetsAux k maxLen W (offset + W)).length - 1) + 1 := by omega
      calc W + W * ((groupOffsetsAux k maxLen W (offset + W)).length - 1)
          = W * (((groupOffsetsAux k maxLen W (offset + W)).length - 1) + 1) := by
            rw [Nat.mul_succ]; omega
        _ = W * (groupOffsetsAux k maxLen W (offset + W)).length := by
            rw [← hL]

/-- The terminal window offset of a group falls strictly inside its
longest document: the span built there (and discarded for the corpus's
final group) is never empty for that document. -/
theorem groupOffsetsAux_terminal_lt (maxLen W : ℕ) :
    ∀ (fuel offset : ℕ), offset < maxLen →
      maxLen ≤ offset + W * (fuel + 1) →
      offset + W * ((groupOffsetsAux fuel maxLen W offset).length - 1) <
        maxLen := by
  intro fuel
  induction fuel with
  | zero =>
    intro offset h1 _h2
    simpa [groupOffsetsAux] using h1
  | succ k ih =>
    intro offset h1 h2
    by_cases hend : maxLen ≤ offset + W
    · simpa [groupOffsetsAux, hend] using h1
    · have hne := groupOffsetsAux_ne_nil k maxLen W (offset + W)
      have hpos : 1 ≤ (groupOffsetsAux k maxLen W (offset + W)).length :=
        List.length_pos.mpr hne
      have hmul : W * (k + 1 + 1) = W * (k + 1) + W := Nat.mul_succ W (k + 1)
      have ihh := ih (offset + W) (by omega) (by omega)
      simp only [groupOffsetsAux, if_neg hend, List.length_cons,
        Nat.add_sub_cancel]
      have hm2 : W * (groupOffsetsAux k maxLen W (offset + W)).length =
          W * ((groupOffsetsAux k maxLen W (offset + W)).length - 1) + W := by
        have hL : (groupOffsetsAux k maxLen W (offset + W)).length =
            ((groupOffsetsAux k maxLen W (offset + W)).length - 1) + 1 := by
          omega
        calc W * (groupOffsetsAux k maxLen W (offset + W)).length
            = W * (((groupOffsetsAux k maxLen W (offset + W)).length - 1) + 1) := by
              rw [← hL]
          _ = W * ((groupOffsetsAux k maxLen W (offset + W)).length - 1) + W :=
              Nat.mul_succ _ _
      omega

/-- C9 counterexample.  Corpus of one document `[10, 20, 30]`,
`batch_size = 1`, `win_size = 2`, overlap 0: the only group is the final
one (`groupRaisesStop 1 0 1` is true), so the batch built on the terminal
`end_of_docs` call is discarded by the early `raise StopIteration`
(data_preprocessing.py:141) and the consumer receives only the window at
offset 0 — the concatenated valid spans are `[10, 20]`, missing the
document's tail `[30]`. -/
theorem C9_counterexample :
    groupRaisesStop 1 0 1 = true ∧
      ((docWindows [10, 20, 30] 2 3 (groupRaisesStop 1 0 1)).map
        validSpan).flatten = [some 10, some 20] ∧
      ((docWindows [10, 20, 30] 2 3 (groupRaisesStop 1 0 1)).map
        validSpan).flatten ≠ [10, 20, 30].map some := by decide

/-- C9 (amended): with overlap 0 and a positive window size, for every
document of a non-final group (StopIteration guard false) concatenating
in order the valid (unpadded) spans of the delivered windows yields
exactly the document, with no token missing and none repeated; for a
document of the corpus's FINAL group (guard true) the terminal batch is
built but discarded, so the delivered spans reconstruct exactly the
document truncated at the terminal window offset — an offset strictly
below the group's maximum document length, so the final group's longest
document always loses its tail. -/
theorem C9_final_group_truncated {α : Type} (d : List α)
    (win_size maxLen : ℕ) (hW : 0 < win_size) (hlen : d.length ≤ maxLen)
    (raises : Bool) :
    (((docWindows d win_size maxLen raises).map validSpan).flatten =
      if raises
      then (d.map some).take
        (win_size * ((builtOffsets maxLen win_size).length - 1))
      else d.map some) ∧
    (0 < maxLen →
      win_size * ((builtOffsets maxLen win_size).length - 1) < maxLen) := by
  have hcomp : (validSpan ∘ windowAt d win_size) =
      fun off => ((d.map some).drop off).take win_size := by
    funext off
    exact validSpan_windowAt d win_size off
  have hfuel : maxLen ≤ 0 + win_size * (maxLen + 1) := by
    have h1 : maxLen + 1 ≤ win_size * (maxLen + 1) :=
      Nat.le_mul_of_pos_left _ hW
    omega
  constructor
  · cases raises with
    | false =>
      rw [if_neg Bool.false_ne_true]
      unfold docWindows deliveredOffsets builtOffsets
      rw [if_neg Bool.false_ne_true, List.map_map, hcomp]
      have := groupOffsetsAux_flatten (d.map some) maxLen win_size
        (by rw [List.length_map]; exact hlen) maxLen 0 hfuel
      rw [this, List.drop_zero]
    | true =>
      rw [if_pos rfl]
      unfold docWindows deliveredOffsets builtOffsets
      rw [if_pos rfl, List.map_map, hcomp]
      have := groupOffsetsAux_dropLast_flatten (d.map some) maxLen
        win_size maxLen 0
      rw [this, List.drop_zero]
  · intro hpos
    have := groupOffsetsAux_terminal_lt maxLen win_size maxLen 0 hpos hfuel
    unfold builtOffsets
    omega

/-- C9 witness: document `[10, 20, 30]`, window size 2, group maximum 3,
final group — only the window at offset 0 is delivered and the spans
reconstruct the truncation `[10, 20]`. -/
theorem C9_final_group_truncated_witness :
    (((docWindows [10, 20, 30] 2 3 true).map validSpan).flatten =
      if true
      then ([10, 20, 30].map some).take (2 * ((builtOffsets 3 2).length - 1))
      else [10, 20, 30].map some) ∧
    (0 < 3 → 2 * ((builtOffsets 3 2).length - 1) < 3) :=
  C9_final_group_truncated [10, 20, 30] 2 3 (by decide) (by decide) true

end WSD
